import Mathlib

/-!
A shallow embedding of the Last-Run Detection & Recovery Engine of the
file-watcher repository (`file_watcher/lastrun_file_monitor.py` together with
the watermark-store client `file_watcher/database/db_updater.py`).

Python strings are modelled as Lean `String`s; every string operation used by
the source is defined explicitly on the underlying character list `String.data`
so that all reasoning happens on plain lists.  The filesystem and the clock are
modelled as explicit inputs; the notification callback and the watermark store
are modelled by recording their invocations in the engine state.
-/

/-- The numeric value of a decimal digit character, i.e. `c.toNat - 48`. -/
def digitVal (c : Char) : Nat := c.toNat - 48

/-- The decimal digit character for `d` (`0 ≤ d ≤ 9` in actual use). -/
def digitCh (d : Nat) : Char := Char.ofNat (48 + d)

/-- Value of a digit string, most significant digit first.  Together with
`pyIntNat` this models Python `int()` applied to a string of decimal digits
(the only shape of string the engine ever converts; on non-numeric text
`int()` raises `ValueError`, which no claim exercises). -/
def parseNatDigits (l : List Char) : Nat :=
  l.foldl (fun n c => n * 10 + digitVal c) 0

/-- Python `int(s)` for a string of decimal digits. -/
def pyIntNat (s : String) : Nat := parseNatDigits s.data

/-- Fuel-driven decimal printer: digits of `n`, most significant first.
The fuel argument only forces structural termination; it is always given as
`n + 1`, which is sufficient since `n / 10 < n` for `n ≥ 10`. -/
def pyStrAux : Nat → Nat → List Char
  | 0, _ => []
  | fuel + 1, n =>
    if n < 10 then [digitCh n] else pyStrAux fuel (n / 10) ++ [digitCh (n % 10)]

/-- Decimal text of a natural number: models Python `str(run)` for the loop
variable of `recover_lost_runs` (a nonnegative `int`). -/
def pyStr (n : Nat) : String := ⟨pyStrAux (n + 1) n⟩

theorem digitVal_digitCh : ∀ d < 10, digitVal (digitCh d) = d := by decide

theorem digitCh_eq_zero_iff : ∀ d < 10, (digitCh d = '0' ↔ d = 0) := by decide

theorem parseNatDigits_append (l1 l2 : List Char) :
    parseNatDigits (l1 ++ l2) =
      l2.foldl (fun n c => n * 10 + digitVal c) (parseNatDigits l1) := by
  simp [parseNatDigits, List.foldl_append]

theorem pyStrAux_parse : ∀ fuel n, n < fuel → parseNatDigits (pyStrAux fuel n) = n := by
  intro fuel
  induction fuel with
  | zero => intro n h; omega
  | succ fuel ih =>
    intro n h
    by_cases h10 : n < 10
    · simp [pyStrAux, h10, parseNatDigits, digitVal_digitCh n h10]
    · have hpos : 0 < n := by omega
      have hdivlt : n / 10 < n := Nat.div_lt_self hpos (by omega)
      have hdiv : n / 10 < fuel := by omega
      have hmod : n % 10 < 10 := Nat.mod_lt n (by omega)
      simp only [pyStrAux, h10, if_false, parseNatDigits_append, ih (n / 10) hdiv,
        List.foldl_cons, List.foldl_nil, digitVal_digitCh (n % 10) hmod]
      omega

/-- Parsing the decimal text of `n` gives back `n`. -/
theorem pyIntNat_pyStr (n : Nat) : pyIntNat (pyStr n) = n :=
  pyStrAux_parse (n + 1) n (Nat.lt_succ_self n)

theorem pyStrAux_ne_nil : ∀ fuel n, 0 < fuel → pyStrAux fuel n ≠ [] := by
  intro fuel n h
  match fuel with
  | f + 1 =>
    by_cases h10 : n < 10 <;> simp [pyStrAux, h10]

/-- A leading block of zero digits does not change the parsed value. -/
theorem parseNatDigits_zeros (z l : List Char) (hz : ∀ c ∈ z, c = '0') :
    parseNatDigits (z ++ l) = parseNatDigits l := by
  induction z with
  | nil => rfl
  | cons c z ih =>
    have hc : c = '0' := hz c (List.mem_cons_self c z)
    have hz' : ∀ c ∈ z, c = '0' := fun x hx => hz x (List.mem_cons_of_mem c hx)
    subst hc
    simp only [List.cons_append, parseNatDigits, List.foldl_cons]
    have : digitVal '0' = 0 := by decide
    rw [this]
    exact ih hz'

/-- Concatenation of two Python strings (`a + b` in the source). -/
def strCat (a b : String) : String := ⟨a.data ++ b.data⟩

/-- Python slice `s[1:]`. -/
def strDrop1 (s : String) : String := ⟨s.data.drop 1⟩

/-- Python slice `s[3:]` — used to strip the facility prefix letters `NDX`
from an instrument name (`self.instrument[3:]`). -/
def stripNDX (s : String) : String := ⟨s.data.drop 3⟩

theorem strCat_data (a b : String) : (strCat a b).data = a.data ++ b.data := rfl

/-- Models `re.match(r"^0*", string).group(0)`: the leading block of zero digits. -/
def grab_zeros_from_beginning_of_string (s : String) : String :=
  ⟨s.data.takeWhile (fun c => c = '0')⟩

theorem grab_zeros_all_zero (s : String) :
    ∀ c ∈ (grab_zeros_from_beginning_of_string s).data, c = '0' := by
  intro c hc
  have := List.mem_takeWhile_imp hc
  simpa using this

/-- One token-splitting pass over a character list, accumulating the current
token in reverse: models CPython `str.split()` with no separator argument
(split on runs of whitespace, no empty tokens). -/
def wsSplitAux : List Char → List Char → List (List Char)
  | [], acc => if acc.isEmpty then [] else [acc.reverse]
  | c :: cs, acc =>
    if c.isWhitespace then
      if acc.isEmpty then wsSplitAux cs [] else acc.reverse :: wsSplitAux cs []
    else wsSplitAux cs (c :: acc)

/-- Python `s.split()`. -/
def pySplit (s : String) : List String := (wsSplitAux s.data []).map String.mk

/-- Python `file.readline()` on the watermark file: the first line.  (The
source keeps the terminating newline, which `split()` then discards; the model
drops it up front, which yields the same token list.) -/
def readline (content : String) : String := ⟨content.data.takeWhile (fun c => c ≠ '\n')⟩

/-- Configuration of one `LastRunDetector` instance: the constructor arguments
that the claims depend on.  `fnamePre` is the run-file name stem
(`run_file_prefix` in the source, e.g. `MAR` for MARI). -/
structure Config where
  archivePath : String
  instrument : String
  fnamePre : String
deriving DecidableEq, Repr

/-- The filesystem as seen by the engine, modelled as explicit query
functions:
* `pathExists p` — `Path.exists()` for the full path string `p`;
* `rglobFind run_number` — `find_file_in_instruments_data_folder`: the first
  match of the recursive glob `cycle_??_?/*{run_number}.nxs` under the
  instrument data directory, or `none` when the glob is empty (in the source
  the empty case raises `IndexError`, which `generate_run_path` turns into
  `FileNotFoundError`);
* `listdir dir` — `os.listdir(dir)` in its arbitrary on-disk order. -/
structure FS where
  pathExists : String → Bool
  rglobFind : String → Option String
  listdir : String → List String

/-- One row of the `instruments` table (`Instrument` in `db_updater.py`).
The code passes the run number text straight through to the row, so the model
stores it as the string handed to `update_latest_run`. -/
structure InstrumentRow where
  instrument_name : String
  latest_run : String
deriving DecidableEq, Repr

/-- Models `DBUpdater.update_latest_run`: mutate the first row whose name
matches, or append a fresh row when there is none. -/
def update_latest_run : List InstrumentRow → String → String → List InstrumentRow
  | [], instrument, latest => [⟨instrument, latest⟩]
  | r :: rs, instrument, latest =>
    if r.instrument_name = instrument then ⟨instrument, latest⟩ :: rs
    else r :: update_latest_run rs instrument latest

/-- Models `DBUpdater.get_latest_run`: the `latest_run` of the first row whose
name matches, or `none`. -/
def get_latest_run (db : List InstrumentRow) (instrument : String) : Option String :=
  (db.find? (fun r => r.instrument_name = instrument)).map (fun r => r.latest_run)

/-- The mutable state of one `LastRunDetector` instance, together with the
observable history of its effects: `emissions` records the paths passed to the
notification callback and `dbWrites` records the run values passed to the
watermark store, both oldest first; `db` carries the store rows themselves. -/
structure EngineState where
  lastRecorded : String
  latestKnown : String
  latestCycle : String
  lastCycleCheck : Nat
  db : List InstrumentRow
  dbWrites : List String
  emissions : List String
deriving DecidableEq, Repr

/-- Take the observable steps of lines 164–166 of `lastrun_file_monitor.py`:
invoke the callback with `run_path`, call `update_db_with_latest_run`
(which strips the `NDX` letters off the instrument name before writing), and
set `last_recorded_run_from_file` to `run_number`. -/
def emit_and_record (cfg : Config) (st : EngineState) (run_number run_path : String) :
    EngineState :=
  { st with
    emissions := st.emissions ++ [run_path]
    db := update_latest_run st.db (stripNDX cfg.instrument) run_number
    dbWrites := st.dbWrites ++ [run_number]
    lastRecorded := run_number }

/-- Direct candidate path built by `generate_run_path`:
`archive_path / instrument / "Instrument/data" / latest_cycle / (run_file_prefix + run_number + ".nxs")`. -/
def directRunPath (cfg : Config) (cycle run_number : String) : String :=
  strCat cfg.archivePath (strCat "/"
    (strCat cfg.instrument (strCat "/Instrument/data/"
      (strCat cycle (strCat "/"
        (strCat cfg.fnamePre (strCat run_number ".nxs")))))))

/-- Models `LastRunDetector.find_file_in_instruments_data_folder`: the
recursive glob search, `none` when no file matches. -/
def find_file_in_instruments_data_folder (fs : FS) (run_number : String) : Option String :=
  fs.rglobFind run_number

/-- Models `LastRunDetector.generate_run_path`: the direct candidate when it
exists, otherwise the fallback search; `none` stands for the
`FileNotFoundError` the source raises when both fail. -/
def generate_run_path (cfg : Config) (fs : FS) (cycle run_number : String) : Option String :=
  let path := directRunPath cfg cycle run_number
  if fs.pathExists path then some path
  else find_file_in_instruments_data_folder fs run_number

/-- Models `LastRunDetector.new_run_detected`.  With no path supplied the run
path is generated first; a `FileNotFoundError` there is logged and the method
returns with no callback, no store write and no state change. -/
def new_run_detected (cfg : Config) (fs : FS) (st : EngineState)
    (run_number : String) (run_path : Option String) : EngineState :=
  match run_path with
  | some p => emit_and_record cfg st run_number p
  | none =>
    match generate_run_path cfg fs st.latestCycle run_number with
    | some p => emit_and_record cfg st run_number p
    | none => st

/-- Candidate built at line 197 of the source:
`actual_run_number = initial_zeros + str(run)`. -/
def actual_run_number (initial_zeros : String) (run : Nat) : String :=
  strCat initial_zeros (pyStr run)

/-- Candidate built at lines 200–204 of the source: one leading zero dropped
when `initial_zeros` has length greater than 1, otherwise the primary
candidate unchanged. -/
def actual_run_number_1_less_zero (initial_zeros : String) (run : Nat) : String :=
  if initial_zeros.data.length > 1 then strDrop1 (actual_run_number initial_zeros run)
  else actual_run_number initial_zeros run

/-- One pass of the `for run in range(...)` body of
`LastRunDetector.recover_lost_runs` (lines 195–222): try the primary padding
candidate, then — when it differs — the one-less-zero candidate; when neither
resolves, the `FileNotFoundError` is logged and the state is untouched. -/
def recover_one (cfg : Config) (fs : FS) (initial_zeros : String)
    (st : EngineState) (run : Nat) : EngineState :=
  let actual := actual_run_number initial_zeros run
  let alt := actual_run_number_1_less_zero initial_zeros run
  match generate_run_path cfg fs st.latestCycle actual with
  | some run_path => new_run_detected cfg fs st actual (some run_path)
  | none =>
    if alt ≠ actual then
      match generate_run_path cfg fs st.latestCycle alt with
      | some alt_run_path => new_run_detected cfg fs st alt (some alt_run_path)
      | none => st
    else st

/-- Folds `recover_one` over the run numbers of a recovery batch in order. -/
def recover_runs_list (cfg : Config) (fs : FS) (initial_zeros : String) :
    List Nat → EngineState → EngineState
  | [], st => st
  | run :: rest, st => recover_runs_list cfg fs initial_zeros rest (recover_one cfg fs initial_zeros st run)

/-- Models `LastRunDetector.recover_lost_runs`: iterate over
`range(int(earlier_run) + 1, int(later_run) + 1)` with the leading-zero block
of `earlier_run` as the padding. -/
def recover_lost_runs (cfg : Config) (fs : FS) (st : EngineState)
    (earlier_run later_run : String) : EngineState :=
  let initial_zeros := grab_zeros_from_beginning_of_string earlier_run
  recover_runs_list cfg fs initial_zeros
    (List.range' (pyIntNat earlier_run + 1) (pyIntNat later_run - pyIntNat earlier_run)) st

/-- Models `LastRunDetector.get_last_run_from_file` applied to the current
content of `lastrun.txt`: the second whitespace token of the first line when
that line has exactly three tokens, the `RuntimeError` text otherwise. -/
def get_last_run_from_file (content : String) : Except String String :=
  let line_parts := pySplit (readline content)
  if h : line_parts.length = 3 then Except.ok (line_parts.get ⟨1, by omega⟩)
  else Except.error "Unexpected last run file format"

/-- Lexicographic comparison of character lists by code point: models the
Python string order used by `list.sort()`. -/
def lexLe : List Char → List Char → Bool
  | [], _ => true
  | _ :: _, [] => false
  | a :: as, b :: bs => if a < b then true else if b < a then false else lexLe as bs

/-- Python string order `a <= b` (lexicographic by code point). -/
def strLe (a b : String) : Prop := lexLe a.data b.data = true

instance strLe.instDecidableRel : DecidableRel strLe :=
  fun a b => instDecidableEqBool (lexLe a.data b.data) true

theorem lexLe_refl : ∀ l : List Char, lexLe l l = true := by
  intro l
  induction l with
  | nil => rfl
  | cons a as ih => simp [lexLe, ih]

theorem lexLe_total : ∀ as bs : List Char, lexLe as bs = true ∨ lexLe bs as = true := by
  intro as
  induction as with
  | nil => intro bs; exact Or.inl rfl
  | cons a as ih =>
    intro bs
    cases bs with
    | nil => exact Or.inr rfl
    | cons b bs =>
      rcases lt_trichotomy a b with h | h | h
      · left; simp [lexLe, h]
      · subst h
        rcases ih bs with h' | h' <;> [left; right] <;>
          simp [lexLe, lt_irrefl, h']
      · right; simp [lexLe, h]

theorem lexLe_trans :
    ∀ as bs cs : List Char, lexLe as bs = true → lexLe bs cs = true → lexLe as cs = true := by
  intro as
  induction as with
  | nil => intro bs cs _ _; rfl
  | cons a as ih =>
    intro bs cs hab hbc
    cases bs with
    | nil => simp [lexLe] at hab
    | cons b bs =>
      cases cs with
      | nil => simp [lexLe] at hbc
      | cons c cs =>
        rcases lt_trichotomy a b with h1 | h1 | h1
        · rcases lt_trichotomy b c with h2 | h2 | h2
          · simp [lexLe, lt_trans h1 h2]
          · subst h2; simp [lexLe, h1]
          · simp [lexLe, h2, not_lt_of_gt h2] at hbc
        · subst h1
          rcases lt_trichotomy a c with h2 | h2 | h2
          · simp [lexLe, h2]
          · subst h2
            simp only [lexLe, lt_irrefl, if_false, if_neg (lt_irrefl a)] at hab hbc ⊢
            exact ih bs cs hab hbc
          · simp [lexLe, h2, not_lt_of_gt h2] at hab hbc
        · simp [lexLe, h1, not_lt_of_gt h1] at hab

instance strLe.instIsTotal : IsTotal String strLe := ⟨fun a b => lexLe_total a.data b.data⟩

instance strLe.instIsTrans : IsTrans String strLe :=
  ⟨fun a b c hab hbc => lexLe_trans a.data b.data c.data hab hbc⟩

/-- Models `LastRunDetector.get_latest_cycle`: list the reference instrument
data directory `{archive_path}/NDXWISH/instrument/data/`, sort, return the
last entry; `none` stands for the `FileNotFoundError` raised when the listing
is empty.  Python `list.sort()` on strings is modelled by insertion sort under
the lexicographic order — extensionally the unique nondecreasing reordering. -/
def get_latest_cycle (fs : FS) (cfg : Config) : Option String :=
  let all_cycles := fs.listdir (strCat cfg.archivePath "/NDXWISH/instrument/data/")
  (List.insertionSort strLe all_cycles).getLast?

/-- Models `LastRunDetector.get_latest_run_from_db`: read the store under the
instrument name with the `NDX` letters stripped. -/
def get_latest_run_from_db (cfg : Config) (db : List InstrumentRow) : Option String :=
  get_latest_run db (stripNDX cfg.instrument)

/-- Models `LastRunDetector.update_db_with_latest_run` as a step on the
engine state: write the store under the stripped instrument name and record
the write. -/
def update_db_with_latest_run (cfg : Config) (st : EngineState) (run_number : String) :
    EngineState :=
  { st with
    db := update_latest_run st.db (stripNDX cfg.instrument) run_number
    dbWrites := st.dbWrites ++ [run_number] }

/-- One poll iteration's inputs: the wall clock reading
(`datetime.datetime.now()`, in seconds) and the content of `lastrun.txt` at
that moment. -/
structure PollInput where
  time : Nat
  fileContent : String
deriving DecidableEq, Repr

/-- Cycle-refresh step at the top of each `watch_for_new_runs` iteration
(lines 112–117): after 21600 seconds re-resolve the latest cycle; a
`FileNotFoundError` from `get_latest_cycle` escapes the loop. -/
def cycle_refresh (cfg : Config) (fs : FS) (now : Nat) (st : EngineState) :
    Except String EngineState :=
  if now - st.lastCycleCheck > 21600 then
    match get_latest_cycle fs cfg with
    | some c => Except.ok { st with latestCycle := c, lastCycleCheck := now }
    | none => Except.error "No cycles present in archive path"
  else Except.ok st

/-- One iteration of the `while` loop of `LastRunDetector.watch_for_new_runs`
(lines 109–135): refresh the cycle if due; read `lastrun.txt`, a
`RuntimeError` there being logged and the iteration abandoned; on a changed
run, recover when the integer difference exceeds 1 and take the single-run
path otherwise. -/
def watch_iteration (cfg : Config) (fs : FS) (pi : PollInput) (st : EngineState) :
    Except String EngineState :=
  match cycle_refresh cfg fs pi.time st with
  | Except.error e => Except.error e
  | Except.ok st1 =>
    match get_last_run_from_file pi.fileContent with
    | Except.error _ => Except.ok st1
    | Except.ok run_in_file =>
      if run_in_file ≠ st1.lastRecorded then
        if (pyIntNat run_in_file : Int) - (pyIntNat st1.lastRecorded : Int) > 1 then
          Except.ok (recover_lost_runs cfg fs st1 st1.lastRecorded run_in_file)
        else
          Except.ok (new_run_detected cfg fs st1 run_in_file none)
      else Except.ok st1

/-- The watch loop over a finite schedule of poll inputs. -/
def watch_loop (cfg : Config) (fs : FS) : List PollInput → EngineState → Except String EngineState
  | [], st => Except.ok st
  | pi :: rest, st =>
    match watch_iteration cfg fs pi st with
    | Except.error e => Except.error e
    | Except.ok st1 => watch_loop cfg fs rest st1

/-- Models `LastRunDetector.__init__` (lines 49–78): read `lastrun.txt`,
resolve the latest cycle, then read the persisted watermark; when the store
has no row, seed it with the local value.  Failures of the first two steps
propagate out of the constructor. -/
def detector_construct (cfg : Config) (fs : FS) (initContent : String) (now : Nat)
    (db0 : List InstrumentRow) : Except String EngineState :=
  match get_last_run_from_file initContent with
  | Except.error e => Except.error e
  | Except.ok lastRecorded =>
    match get_latest_cycle fs cfg with
    | none => Except.error "No cycles present in archive path"
    | some latestCycle =>
      let st0 : EngineState :=
        { lastRecorded := lastRecorded, latestKnown := lastRecorded,
          latestCycle := latestCycle, lastCycleCheck := now,
          db := db0, dbWrites := [], emissions := [] }
      match get_latest_run_from_db cfg db0 with
      | none => Except.ok (update_db_with_latest_run cfg st0 lastRecorded)
      | some v => Except.ok { st0 with latestKnown := v }

/-- Models `LastRunDetector._init` (lines 80–91): when the persisted
watermark is numerically behind the local one, run one recovery batch over
the interval between them, then align `latest_known_run_from_db` with the
(possibly updated) in-memory watermark. -/
def detector_init (cfg : Config) (fs : FS) (st : EngineState) : EngineState :=
  if (pyIntNat st.latestKnown : Int) < (pyIntNat st.lastRecorded : Int) then
    let st1 := recover_lost_runs cfg fs st st.latestKnown st.lastRecorded
    { st1 with latestKnown := st1.lastRecorded }
  else st

/-- A whole engine-instance lifetime: `create_last_run_detector` (construction
plus `_init`) followed by the watch loop over a finite poll schedule. -/
def detector_lifetime (cfg : Config) (fs : FS) (initContent : String) (now : Nat)
    (db0 : List InstrumentRow) (inputs : List PollInput) : Except String EngineState :=
  match detector_construct cfg fs initContent now db0 with
  | Except.error e => Except.error e
  | Except.ok st => watch_loop cfg fs inputs (detector_init cfg fs st)

/-- Writing a row for a name and reading that name back yields the value
just written, whatever the table contained before. -/
theorem get_latest_run_update (db : List InstrumentRow) (i v : String) :
    get_latest_run (update_latest_run db i v) i = some v := by
  induction db with
  | nil => simp [update_latest_run, get_latest_run, List.find?]
  | cons r rs ih =>
    by_cases h : r.instrument_name = i
    · simp [update_latest_run, h, get_latest_run, List.find?]
    · simp only [update_latest_run, if_neg h, get_latest_run] at ih ⊢
      rw [List.find?_cons_of_neg]
      · exact ih
      · simpa using h

/-- A concrete configuration used by witnesses. -/
def cfgW : Config := ⟨"/archive", "NDXMARI", "MAR"⟩

/-- A filesystem on which nothing exists, used by witnesses. -/
def fsNone : FS := ⟨fun _ => false, fun _ => none, fun _ => []⟩

/-- A concrete engine state used by witnesses. -/
def stW : EngineState :=
  { lastRecorded := "0001", latestKnown := "0001", latestCycle := "cycle_23_2",
    lastCycleCheck := 0, db := [], dbWrites := [], emissions := [] }

/-- C10: updating the watermark store under the external instrument name
`NDXMARI` with run `0007` and reading it back under the stripped name `MARI`
returns `0007`; the `NDX` letters are stripped identically on the update path
(`update_db_with_latest_run`) and on the read path (`get_latest_run_from_db`),
so the two name representations round-trip consistently. -/
theorem c10_instrument_name_round_trip (cfg : Config) (st : EngineState)
    (hinst : cfg.instrument = "NDXMARI") :
    stripNDX cfg.instrument = "MARI" ∧
    get_latest_run (update_db_with_latest_run cfg st "0007").db "MARI" = some "0007" ∧
    get_latest_run_from_db cfg (update_db_with_latest_run cfg st "0007").db = some "0007" := by
  have hstrip : stripNDX cfg.instrument = "MARI" := by rw [hinst]; decide
  refine ⟨hstrip, ?_, ?_⟩
  · simpa [update_db_with_latest_run, hstrip] using
      get_latest_run_update st.db (stripNDX cfg.instrument) "0007"
  · simpa [get_latest_run_from_db, update_db_with_latest_run] using
      get_latest_run_update st.db (stripNDX cfg.instrument) "0007"

theorem c10_witness :
    get_latest_run (update_db_with_latest_run cfgW stW "0007").db "MARI" = some "0007" :=
  (c10_instrument_name_round_trip cfgW stW rfl).2.1

/-- C9: cycle resolution lists the cycle folders under the fixed reference
instrument's (`NDXWISH`) data directory and returns the lexicographically
greatest entry — in particular `cycle_23_2` for the listing
`cycle_22_1, cycle_23_1, cycle_23_2` — and resolves to the `NotFound` failure
exactly when the listing is empty. -/
theorem c9_cycle_resolution :
    (∀ (fs : FS) (cfg : Config),
      fs.listdir (strCat cfg.archivePath "/NDXWISH/instrument/data/") =
        ["cycle_22_1", "cycle_23_1", "cycle_23_2"] →
      get_latest_cycle fs cfg = some "cycle_23_2") ∧
    (∀ (fs : FS) (cfg : Config),
      get_latest_cycle fs cfg = none ↔
        fs.listdir (strCat cfg.archivePath "/NDXWISH/instrument/data/") = []) ∧
    (∀ (fs : FS) (cfg : Config) (m : String),
      get_latest_cycle fs cfg = some m →
      m ∈ fs.listdir (strCat cfg.archivePath "/NDXWISH/instrument/data/") ∧
      ∀ x ∈ fs.listdir (strCat cfg.archivePath "/NDXWISH/instrument/data/"), strLe x m) := by
  refine ⟨?_, ?_, ?_⟩
  · intro fs cfg h
    simp only [get_latest_cycle, h]
    rfl
  · intro fs cfg
    simp only [get_latest_cycle, List.getLast?_eq_none_iff]
    constructor
    · intro h
      have hp := List.perm_insertionSort strLe
        (fs.listdir (strCat cfg.archivePath "/NDXWISH/instrument/data/"))
      rw [h] at hp
      exact hp.symm.eq_nil
    · intro h
      rw [h]
      rfl
  · intro fs cfg m h
    simp only [get_latest_cycle] at h
    rcases List.getLast?_eq_some_iff.mp h with ⟨ys, hys⟩
    have hmem : m ∈ List.insertionSort strLe
        (fs.listdir (strCat cfg.archivePath "/NDXWISH/instrument/data/")) := by
      rw [hys]; exact List.mem_append_right ys (List.mem_singleton_self m)
    have hsorted := List.sorted_insertionSort strLe
      (fs.listdir (strCat cfg.archivePath "/NDXWISH/instrument/data/"))
    rw [hys] at hsorted
    refine ⟨(List.mem_insertionSort strLe).mp hmem, ?_⟩
    intro x hx
    have hx' : x ∈ ys ++ [m] := by
      rw [← hys]; exact (List.mem_insertionSort strLe).mpr hx
    rcases List.mem_append.mp hx' with hxy | hxm
    · exact (List.pairwise_append.mp hsorted).2.2 x hxy m (List.mem_singleton_self m)
    · rw [List.mem_singleton.mp hxm]
      exact lexLe_refl m.data

/-- A filesystem whose reference-instrument data directory holds the three
cycle folders of the C9 example. -/
def fsC9 : FS := ⟨fun _ => false, fun _ => none,
  fun _ => ["cycle_22_1", "cycle_23_1", "cycle_23_2"]⟩

theorem c9_witness : get_latest_cycle fsC9 cfgW = some "cycle_23_2" :=
  c9_cycle_resolution.1 fsC9 cfgW rfl

/-- C8: when path resolution fails for the directly detected newest run — the
single-run path calls `new_run_detected` with no path — the event is
suppressed atomically: the callback is not invoked, the watermark store is
not written, and the in-memory recorded watermark is left unchanged (the
`FileNotFoundError` is only logged). -/
theorem c8_single_run_suppression (cfg : Config) (fs : FS) (st : EngineState)
    (run_number : String)
    (h : generate_run_path cfg fs st.latestCycle run_number = none) :
    new_run_detected cfg fs st run_number none = st := by
  simp [new_run_detected, h]

theorem c8_witness : new_run_detected cfgW fsNone stW "9999" none = stW :=
  c8_single_run_suppression cfgW fsNone stW "9999" rfl

/-- C4: during a recovery batch, a run number for which neither padding
candidate resolves is skipped with no emission, no store write and no state
change at all — in particular the in-memory watermark does not advance — and
the remaining run numbers of the batch are still processed from the same
state. -/
theorem c4_unlocatable_run_skipped (cfg : Config) (fs : FS) (initial_zeros : String)
    (st : EngineState) (run : Nat) (rest : List Nat)
    (h1 : generate_run_path cfg fs st.latestCycle (actual_run_number initial_zeros run) = none)
    (h2 : generate_run_path cfg fs st.latestCycle
      (actual_run_number_1_less_zero initial_zeros run) = none) :
    recover_one cfg fs initial_zeros st run = st ∧
    recover_runs_list cfg fs initial_zeros (run :: rest) st =
      recover_runs_list cfg fs initial_zeros rest st := by
  have hone : recover_one cfg fs initial_zeros st run = st := by
    by_cases halt : actual_run_number_1_less_zero initial_zeros run =
        actual_run_number initial_zeros run
    · simp [recover_one, h1, halt]
    · simp [recover_one, h1, h2, halt]
  exact ⟨hone, by simp [recover_runs_list, hone]⟩

theorem c4_witness : recover_one cfgW fsNone "000" stW 10 = stW :=
  (c4_unlocatable_run_skipped cfgW fsNone "000" stW 10 [] rfl rfl).1

/-- Configuration and filesystem refuting C1 as stated: the only run file on
disk is the direct-path file for run text `010` in the current cycle. -/
def fsC1 : FS :=
  ⟨fun p => decide (p = directRunPath cfgW "cycle_23_2" "010"), fun _ => none, fun _ => []⟩

/-- C1 counterexample: with recorded watermark text `0001` and gap run 10 the
primary candidate the code builds is `00010` — not `0010` as the claim states
— and the fallback candidate is `0010` — not `010`; consequently, on a
filesystem where only the run file for `010` exists, the recovery step skips
run 10 entirely instead of finding it through the claimed fallback
candidate. -/
theorem c1_counterexample :
    actual_run_number (grab_zeros_from_beginning_of_string "0001") 10 = "00010" ∧
    actual_run_number (grab_zeros_from_beginning_of_string "0001") 10 ≠ "0010" ∧
    actual_run_number_1_less_zero (grab_zeros_from_beginning_of_string "0001") 10 = "0010" ∧
    actual_run_number_1_less_zero (grab_zeros_from_beginning_of_string "0001") 10 ≠ "010" ∧
    fsC1.pathExists (directRunPath cfgW stW.latestCycle "010") = true ∧
    recover_one cfgW fsC1 (grab_zeros_from_beginning_of_string "0001") stW 10 = stW := by
  refine ⟨rfl, by decide, rfl, by decide, by decide, by decide⟩

/-- C1 amended: during multi-run recovery with recorded watermark text `0001`
and gap run number 10, the primary candidate is `00010` (the leading-zero
block of the recorded text concatenated with decimal 10) and the fallback
candidate, one leading zero dropped, is `0010`; if neither resolves, run 10
is skipped and the run numbers after it in the same batch are still
attempted. -/
theorem c1_amended_padding_fallback (cfg : Config) (fs : FS) (st : EngineState)
    (rest : List Nat)
    (h1 : generate_run_path cfg fs st.latestCycle "00010" = none)
    (h2 : generate_run_path cfg fs st.latestCycle "0010" = none) :
    actual_run_number (grab_zeros_from_beginning_of_string "0001") 10 = "00010" ∧
    actual_run_number_1_less_zero (grab_zeros_from_beginning_of_string "0001") 10 = "0010" ∧
    recover_one cfg fs (grab_zeros_from_beginning_of_string "0001") st 10 = st ∧
    recover_runs_list cfg fs (grab_zeros_from_beginning_of_string "0001") (10 :: rest) st =
      recover_runs_list cfg fs (grab_zeros_from_beginning_of_string "0001") rest st := by
  have e1 : actual_run_number (grab_zeros_from_beginning_of_string "0001") 10 = "00010" := rfl
  have e2 : actual_run_number_1_less_zero (grab_zeros_from_beginning_of_string "0001") 10 =
    "0010" := rfl
  have hne : ("0010" : String) ≠ "00010" := by decide
  have hone : recover_one cfg fs (grab_zeros_from_beginning_of_string "0001") st 10 = st := by
    simp [recover_one, e1, e2, h1, h2, hne]
  exact ⟨e1, e2, hone, by simp [recover_runs_list, hone]⟩

theorem c1_amended_witness :
    recover_one cfgW fsNone (grab_zeros_from_beginning_of_string "0001") stW 10 = stW :=
  (c1_amended_padding_fallback cfgW fsNone stW [] rfl rfl).2.2.1

/-- Cycle refresh touches only the cycle fields of the state. -/
theorem cycle_refresh_frame (cfg : Config) (fs : FS) (now : Nat) (st st1 : EngineState)
    (h : cycle_refresh cfg fs now st = Except.ok st1) :
    st1.lastRecorded = st.lastRecorded ∧ st1.latestKnown = st.latestKnown ∧
    st1.db = st.db ∧ st1.dbWrites = st.dbWrites ∧ st1.emissions = st.emissions := by
  unfold cycle_refresh at h
  split at h
  · split at h
    · cases h; simp
    · cases h
  · cases h; simp

/-- Cycle refresh is the identity when the 21600-second interval has not
elapsed. -/
theorem cycle_refresh_not_due (cfg : Config) (fs : FS) (now : Nat) (st : EngineState)
    (h : now - st.lastCycleCheck ≤ 21600) :
    cycle_refresh cfg fs now st = Except.ok st := by
  unfold cycle_refresh
  rw [if_neg (by omega)]

/-- C6: whenever the local watermark text differs from the in-memory recorded
text but their integer difference is at most 1 — which includes zero
(differently padded but numerically equal values) and negative differences (a
local value that moved backwards) — the iteration takes the single-run path:
it calls `new_run_detected` on the local value, and when the path resolves it
emits it and sets both the persisted and the in-memory watermark to it. -/
theorem c6_single_run_path (cfg : Config) (fs : FS) (pi : PollInput) (st st1 : EngineState)
    (r : String)
    (hcyc : cycle_refresh cfg fs pi.time st = Except.ok st1)
    (hread : get_last_run_from_file pi.fileContent = Except.ok r)
    (hne : r ≠ st1.lastRecorded)
    (hdiff : (pyIntNat r : Int) - (pyIntNat st1.lastRecorded : Int) ≤ 1) :
    watch_iteration cfg fs pi st = Except.ok (new_run_detected cfg fs st1 r none) ∧
    ∀ p, generate_run_path cfg fs st1.latestCycle r = some p →
      (new_run_detected cfg fs st1 r none).emissions = st1.emissions ++ [p] ∧
      (new_run_detected cfg fs st1 r none).dbWrites = st1.dbWrites ++ [r] ∧
      (new_run_detected cfg fs st1 r none).lastRecorded = r ∧
      get_latest_run (new_run_detected cfg fs st1 r none).db (stripNDX cfg.instrument) =
        some r := by
  have hgt : ¬((pyIntNat r : Int) - (pyIntNat st1.lastRecorded : Int) > 1) := by omega
  constructor
  · simp [watch_iteration, hcyc, hread, hne, hgt]
  · intro p hp
    simp [new_run_detected, hp, emit_and_record, get_latest_run_update]

/-- A filesystem holding exactly the direct-path run files for run texts `3`,
`5`, `6`, `7` and `8` of the witness cycle, used by several witnesses. -/
def fsRuns : FS :=
  ⟨fun p => decide (p = directRunPath cfgW "cycle_23_2" "3") ||
      decide (p = directRunPath cfgW "cycle_23_2" "5") ||
      decide (p = directRunPath cfgW "cycle_23_2" "6") ||
      decide (p = directRunPath cfgW "cycle_23_2" "7") ||
      decide (p = directRunPath cfgW "cycle_23_2" "8"),
    fun _ => none, fun _ => []⟩

/-- An engine state whose recorded watermark is `5`, used by witnesses. -/
def stRec5 : EngineState :=
  { lastRecorded := "5", latestKnown := "5", latestCycle := "cycle_23_2",
    lastCycleCheck := 0, db := [⟨"MARI", "5"⟩], dbWrites := [], emissions := [] }

theorem c6_witness :
    watch_iteration cfgW fsRuns ⟨0, "MARI 3 0"⟩ stRec5 =
      Except.ok (new_run_detected cfgW fsRuns stRec5 "3" none) :=
  (c6_single_run_path cfgW fsRuns ⟨0, "MARI 3 0"⟩ stRec5 stRec5 "3" rfl rfl
    (by decide) (by decide)).1

/-- C5 counterexample: an iteration in which the local watermark equals the
recorded one is not always a complete no-op — when the 21600-second
cycle-recheck interval has elapsed the iteration still refreshes the cycle
state, so the cycle fields change even though nothing is emitted and nothing
is written. -/
theorem c5_counterexample :
    get_last_run_from_file "MARI 0001 0" =
      Except.ok ({ stW with latestCycle := "cycle_22_9" } : EngineState).lastRecorded ∧
    watch_iteration cfgW fsC9 ⟨30000, "MARI 0001 0"⟩ { stW with latestCycle := "cycle_22_9" } =
      Except.ok { stW with latestCycle := "cycle_23_2", lastCycleCheck := 30000 } ∧
    ({ stW with latestCycle := "cycle_23_2", lastCycleCheck := 30000 } : EngineState).latestCycle
      ≠ ({ stW with latestCycle := "cycle_22_9" } : EngineState).latestCycle := by
  refine ⟨rfl, rfl, by decide⟩

/-- C5 amended: in every poll iteration whose local watermark reading equals
the in-memory recorded watermark, zero notifications are emitted, zero
watermark-store writes occur and the in-memory watermark is unchanged; the
cycle fields are also unchanged unless the 21600-second cycle-recheck
interval has elapsed, in which case only they may be refreshed. -/
theorem c5_amended_noop (cfg : Config) (fs : FS) (pi : PollInput) (st st1 : EngineState)
    (hcyc : cycle_refresh cfg fs pi.time st = Except.ok st1)
    (hread : get_last_run_from_file pi.fileContent = Except.ok st1.lastRecorded) :
    watch_iteration cfg fs pi st = Except.ok st1 ∧
    st1.emissions = st.emissions ∧ st1.dbWrites = st.dbWrites ∧ st1.db = st.db ∧
    st1.lastRecorded = st.lastRecorded ∧
    (pi.time - st.lastCycleCheck ≤ 21600 → st1 = st) := by
  obtain ⟨h1, h2, h3, h4, h5⟩ := cycle_refresh_frame cfg fs pi.time st st1 hcyc
  refine ⟨?_, h5, h4, h3, h1, ?_⟩
  · simp [watch_iteration, hcyc, hread]
  · intro hdue
    have := cycle_refresh_not_due cfg fs pi.time st hdue
    rw [this] at hcyc
    exact (Except.ok.inj hcyc).symm

theorem c5_witness :
    watch_iteration cfgW fsNone ⟨0, "MARI 0001 0"⟩ stW = Except.ok stW :=
  (c5_amended_noop cfgW fsNone ⟨0, "MARI 0001 0"⟩ stW stW rfl rfl).1

/-- C7: reading the local watermark file yields the second whitespace token of
its first line exactly when that line has exactly three whitespace tokens, and
yields the format error for any other token count; the watch loop catches the
failure and continues with the next iteration (after at most a cycle refresh)
instead of terminating. -/
theorem c7_last_run_file_format (content : String) (cfg : Config) (fs : FS)
    (pi : PollInput) (st st1 : EngineState) (rest : List PollInput) (e : String)
    (hcyc : cycle_refresh cfg fs pi.time st = Except.ok st1)
    (herr : get_last_run_from_file pi.fileContent = Except.error e) :
    (∀ t, get_last_run_from_file content = Except.ok t ↔
      ((pySplit (readline content)).length = 3 ∧ (pySplit (readline content))[1]? = some t)) ∧
    ((pySplit (readline content)).length ≠ 3 →
      get_last_run_from_file content = Except.error "Unexpected last run file format") ∧
    watch_iteration cfg fs pi st = Except.ok st1 ∧
    watch_loop cfg fs (pi :: rest) st = watch_loop cfg fs rest st1 := by
  refine ⟨?_, ?_, ?_, ?_⟩
  · intro t
    unfold get_last_run_from_file
    by_cases h : (pySplit (readline content)).length = 3
    · rw [dif_pos h]
      have h1 : 1 < (pySplit (readline content)).length := by omega
      have hg1 : (pySplit (readline content))[1]? =
          some ((pySplit (readline content)).get ⟨1, h1⟩) := by
        rw [List.getElem?_eq_getElem h1]
        rfl
      constructor
      · intro he
        refine ⟨h, ?_⟩
        rw [hg1, ← Except.ok.inj he]
      · rintro ⟨-, hg⟩
        rw [hg1] at hg
        exact congrArg Except.ok (Option.some.inj hg)
    · rw [dif_neg h]
      simp [h]
  · intro h
    unfold get_last_run_from_file
    rw [dif_neg h]
  · simp [watch_iteration, hcyc, herr]
  · simp [watch_loop, watch_iteration, hcyc, herr]

theorem c7_witness :
    get_last_run_from_file "garbage" = Except.error "Unexpected last run file format" ∧
    watch_loop cfgW fsNone [⟨0, "garbage"⟩] stW = watch_loop cfgW fsNone [] stW :=
  ⟨(c7_last_run_file_format "garbage" cfgW fsNone ⟨0, "garbage"⟩ stW stW [] _ rfl rfl).2.1
      (by decide),
   (c7_last_run_file_format "garbage" cfgW fsNone ⟨0, "garbage"⟩ stW stW [] _ rfl rfl).2.2.2⟩

/-- C2: if at initialization the persisted watermark is `5` and the local
watermark is `8`, the one recovery batch performed by `_init` covers exactly
the runs `6,7,8` of the interval `(5, 8]`, emits them in ascending order, and
afterwards the persisted watermark (both the store row and the aligned
`latest_known_run_from_db` field) equals `8`. -/
theorem c2_startup_reconciliation (cfg : Config) (fs : FS) (st : EngineState)
    (p6 p7 p8 : String)
    (hdb : st.latestKnown = "5") (hfile : st.lastRecorded = "8")
    (h6 : generate_run_path cfg fs st.latestCycle "6" = some p6)
    (h7 : generate_run_path cfg fs st.latestCycle "7" = some p7)
    (h8 : generate_run_path cfg fs st.latestCycle "8" = some p8) :
    (detector_init cfg fs st).emissions = st.emissions ++ [p6, p7, p8] ∧
    (detector_init cfg fs st).dbWrites = st.dbWrites ++ ["6", "7", "8"] ∧
    (detector_init cfg fs st).lastRecorded = "8" ∧
    (detector_init cfg fs st).latestKnown = "8" ∧
    get_latest_run (detector_init cfg fs st).db (stripNDX cfg.instrument) = some "8" := by
  have hzeros : grab_zeros_from_beginning_of_string "5" = "" := rfl
  have hrange : List.range' (pyIntNat "5" + 1) (pyIntNat "8" - pyIntNat "5") = [6, 7, 8] := rfl
  have ha6 : actual_run_number "" 6 = "6" := rfl
  have ha7 : actual_run_number "" 7 = "7" := rfl
  have ha8 : actual_run_number "" 8 = "8" := rfl
  have step6 : recover_one cfg fs "" st 6 = emit_and_record cfg st "6" p6 := by
    simp [recover_one, ha6, h6, new_run_detected]
  have h7' : generate_run_path cfg fs (emit_and_record cfg st "6" p6).latestCycle "7" =
      some p7 := h7
  have step7 : recover_one cfg fs "" (emit_and_record cfg st "6" p6) 7 =
      emit_and_record cfg (emit_and_record cfg st "6" p6) "7" p7 := by
    simp [recover_one, ha7, h7', new_run_detected]
  have h8' : generate_run_path cfg fs
      (emit_and_record cfg (emit_and_record cfg st "6" p6) "7" p7).latestCycle "8" =
      some p8 := h8
  have step8 : recover_one cfg fs "" (emit_and_record cfg (emit_and_record cfg st "6" p6) "7" p7)
      8 = emit_and_record cfg (emit_and_record cfg (emit_and_record cfg st "6" p6) "7" p7)
        "8" p8 := by
    simp [recover_one, ha8, h8', new_run_detected]
  have hrec : recover_lost_runs cfg fs st "5" "8" =
      emit_and_record cfg (emit_and_record cfg (emit_and_record cfg st "6" p6) "7" p7)
        "8" p8 := by
    unfold recover_lost_runs
    rw [hzeros, hrange]
    simp [recover_runs_list, step6, step7, step8]
  have hinit : detector_init cfg fs st =
      { emit_and_record cfg (emit_and_record cfg (emit_and_record cfg st "6" p6) "7" p7)
          "8" p8 with latestKnown := "8" } := by
    unfold detector_init
    rw [hdb, hfile, if_pos (by decide : (pyIntNat "5" : Int) < (pyIntNat "8" : Int)), hrec]
    rfl
  rw [hinit]
  refine ⟨?_, ?_, rfl, rfl, ?_⟩
  · simp [emit_and_record]
  · simp [emit_and_record]
  · simp only [emit_and_record]
    exact get_latest_run_update _ _ _

/-- An engine state ready for the C2 witness: persisted watermark `5`, local
watermark `8`. -/
def stC2 : EngineState :=
  { lastRecorded := "8", latestKnown := "5", latestCycle := "cycle_23_2",
    lastCycleCheck := 0, db := [⟨"MARI", "5"⟩], dbWrites := [], emissions := [] }

theorem c2_witness :
    (detector_init cfgW fsRuns stC2).emissions =
      [directRunPath cfgW "cycle_23_2" "6", directRunPath cfgW "cycle_23_2" "7",
        directRunPath cfgW "cycle_23_2" "8"] ∧
    (detector_init cfgW fsRuns stC2).dbWrites = ["6", "7", "8"] ∧
    get_latest_run (detector_init cfgW fsRuns stC2).db (stripNDX cfgW.instrument) = some "8" := by
  have h := c2_startup_reconciliation cfgW fsRuns stC2
    (directRunPath cfgW "cycle_23_2" "6") (directRunPath cfgW "cycle_23_2" "7")
    (directRunPath cfgW "cycle_23_2" "8") rfl rfl (by decide) (by decide) (by decide)
  exact ⟨h.1, h.2.1, h.2.2.2.2⟩

/-- The primary padding candidate parses back to the run number it was built
from, because its prefix is all zero digits. -/
theorem pyIntNat_actual_run_number (zeros : String) (run : Nat)
    (hz : ∀ c ∈ zeros.data, c = '0') :
    pyIntNat (actual_run_number zeros run) = run := by
  show parseNatDigits (zeros.data ++ (pyStr run).data) = run
  rw [parseNatDigits_zeros zeros.data _ hz]
  exact pyIntNat_pyStr run

/-- The one-less-zero candidate also parses back to the run number it was
built from. -/
theorem pyIntNat_alt_run_number (zeros : String) (run : Nat)
    (hz : ∀ c ∈ zeros.data, c = '0') :
    pyIntNat (actual_run_number_1_less_zero zeros run) = run := by
  unfold actual_run_number_1_less_zero
  by_cases h : zeros.data.length > 1
  · rw [if_pos h]
    show parseNatDigits ((zeros.data ++ (pyStr run).data).drop 1) = run
    cases hd : zeros.data with
    | nil => rw [hd] at h; simp at h
    | cons c t =>
      have ht : ∀ x ∈ t, x = '0' := fun x hx => hz x (by rw [hd]; exact List.mem_cons_of_mem c hx)
      rw [List.cons_append, List.drop_succ_cons, List.drop_zero,
        parseNatDigits_zeros t _ ht]
      exact pyIntNat_pyStr run
  · rw [if_neg h]
    exact pyIntNat_actual_run_number zeros run hz

/-- Run-number batches produced by `range'` are strictly increasing. -/
theorem pairwise_lt_range' : ∀ (n s : Nat), List.Pairwise (· < ·) (List.range' s n) := by
  intro n
  induction n with
  | zero => intro s; exact List.Pairwise.nil
  | succ n ih =>
    intro s
    rw [List.range'_succ]
    refine List.pairwise_cons.mpr ⟨?_, ih (s + 1)⟩
    intro m hm
    rcases List.mem_range'.mp hm with ⟨i, -, rfl⟩
    omega

/-- Elements of a `range'` batch are bounded by its endpoints. -/
theorem mem_range'_bounds {m s n : Nat} (h : m ∈ List.range' s n) : s ≤ m ∧ m < s + n := by
  rcases List.mem_range'.mp h with ⟨i, hi, rfl⟩
  omega

/-- A single recovery step either leaves the state untouched (both candidates
unresolvable) or emits exactly one of the two padding candidates. -/
theorem recover_one_cases (cfg : Config) (fs : FS) (zeros : String) (st : EngineState)
    (run : Nat) :
    recover_one cfg fs zeros st run = st ∨
    ∃ w p, (w = actual_run_number zeros run ∨ w = actual_run_number_1_less_zero zeros run) ∧
      recover_one cfg fs zeros st run = emit_and_record cfg st w p := by
  simp only [recover_one]
  cases h1 : generate_run_path cfg fs st.latestCycle (actual_run_number zeros run) with
  | some p =>
    right
    refine ⟨actual_run_number zeros run, p, Or.inl rfl, ?_⟩
    simp [new_run_detected]
  | none =>
    by_cases halt : actual_run_number_1_less_zero zeros run = actual_run_number zeros run
    · left
      simp [halt]
    · cases h2 : generate_run_path cfg fs st.latestCycle
          (actual_run_number_1_less_zero zeros run) with
      | some p =>
        right
        refine ⟨actual_run_number_1_less_zero zeros run, p, Or.inr rfl, ?_⟩
        simp [halt, new_run_detected]
      | none =>
        left
        simp [halt]

/-- Invariant preservation through a whole recovery batch: with an all-zero
padding block and a strictly increasing batch bounded by `b` from above and by
the previous writes from below, nondecreasing store writes stay
nondecreasing, the final write stays at or below the in-memory watermark, the
watermark stays at or below `b`, and the write log only grows at its end. -/
theorem recover_runs_list_inv (cfg : Config) (fs : FS) (zeros : String)
    (hz : ∀ c ∈ zeros.data, c = '0') :
    ∀ (L : List Nat) (st : EngineState) (b : Nat),
      List.Pairwise (· < ·) L →
      List.Chain' (· ≤ ·) (st.dbWrites.map pyIntNat) →
      (∀ w ∈ st.dbWrites.getLast?, ∀ r ∈ L, pyIntNat w ≤ r) →
      (∀ w ∈ st.dbWrites.getLast?, pyIntNat w ≤ pyIntNat st.lastRecorded) →
      pyIntNat st.lastRecorded ≤ b →
      (∀ r ∈ L, r ≤ b) →
      List.Chain' (· ≤ ·) ((recover_runs_list cfg fs zeros L st).dbWrites.map pyIntNat) ∧
      (∀ w ∈ (recover_runs_list cfg fs zeros L st).dbWrites.getLast?,
        pyIntNat w ≤ pyIntNat (recover_runs_list cfg fs zeros L st).lastRecorded) ∧
      pyIntNat (recover_runs_list cfg fs zeros L st).lastRecorded ≤ b ∧
      (∃ t, (recover_runs_list cfg fs zeros L st).dbWrites = st.dbWrites ++ t) := by
  intro L
  induction L with
  | nil =>
    intro st b _ hchain _ hlastrec hb _
    exact ⟨hchain, hlastrec, hb, [], (List.append_nil _).symm⟩
  | cons run rest ih =>
    intro st b hpw hchain hlastL hlastrec hb hLb
    have hrunb : run ≤ b := hLb run (List.mem_cons_self run rest)
    have hrunrest := (List.pairwise_cons.mp hpw).1
    have hpw' := (List.pairwise_cons.mp hpw).2
    rcases recover_one_cases cfg fs zeros st run with hskip | ⟨w, p, hw, hemit⟩
    · rw [recover_runs_list, hskip]
      exact ih st b hpw' hchain
        (fun w hwm r hr => hlastL w hwm r (List.mem_cons_of_mem run hr))
        hlastrec hb (fun r hr => hLb r (List.mem_cons_of_mem run hr))
    · have hwval : pyIntNat w = run := by
        rcases hw with h | h
        · rw [h]; exact pyIntNat_actual_run_number zeros run hz
        · rw [h]; exact pyIntNat_alt_run_number zeros run hz
      rw [recover_runs_list, hemit]
      have hdw : (emit_and_record cfg st w p).dbWrites = st.dbWrites ++ [w] := rfl
      have hlr : (emit_and_record cfg st w p).lastRecorded = w := rfl
      have hlast' : (emit_and_record cfg st w p).dbWrites.getLast? = some w := by
        rw [hdw]; exact List.getLast?_concat st.dbWrites
      have hchain' :
          List.Chain' (· ≤ ·) ((emit_and_record cfg st w p).dbWrites.map pyIntNat) := by
        rw [hdw, List.map_append, List.chain'_append]
        refine ⟨hchain, List.chain'_singleton _, ?_⟩
        intro x hx y hy
        rw [List.getLast?_map] at hx
        cases hgl : st.dbWrites.getLast? with
        | none => rw [hgl] at hx; cases hx
        | some w0 =>
          rw [hgl] at hx
          have hx' : x = pyIntNat w0 := (by simpa using hx : pyIntNat w0 = x).symm
          have hy' : y = pyIntNat w := (by simpa using hy : pyIntNat w = y).symm
          subst hx'
          subst hy'
          rw [hwval]
          exact hlastL w0 (by rw [hgl]; rfl) run (List.mem_cons_self run rest)
      have hres := ih (emit_and_record cfg st w p) b hpw' hchain'
        (by
          intro w' hw' r hr
          rw [hlast'] at hw'
          have : w' = w := (by simpa using hw' : w = w').symm
          subst this
          rw [hwval]
          exact Nat.le_of_lt (hrunrest r hr))
        (by
          intro w' hw'
          rw [hlast'] at hw'
          have : w' = w := (by simpa using hw' : w = w').symm
          subst this
          rw [hlr])
        (by rw [hlr, hwval]; exact hrunb)
        (fun r hr => hLb r (List.mem_cons_of_mem run hr))
      refine ⟨hres.1, hres.2.1, hres.2.2.1, ?_⟩
      rcases hres.2.2.2 with ⟨t, ht⟩
      exact ⟨[w] ++ t, by rw [ht, hdw, List.append_assoc]⟩

/-- Appending one write at or above a bound dominating all previous writes
keeps the write log nondecreasing. -/
theorem chain_append_single (l : List String) (w : String) (bnd : Nat)
    (hchain : List.Chain' (· ≤ ·) (l.map pyIntNat))
    (hlast : ∀ x ∈ l.getLast?, pyIntNat x ≤ bnd)
    (hw : bnd ≤ pyIntNat w) :
    List.Chain' (· ≤ ·) ((l ++ [w]).map pyIntNat) := by
  rw [List.map_append, List.chain'_append]
  refine ⟨hchain, List.chain'_singleton _, ?_⟩
  intro x hx y hy
  rw [List.getLast?_map] at hx
  cases hgl : l.getLast? with
  | none => rw [hgl] at hx; cases hx
  | some w0 =>
    rw [hgl] at hx
    have hx' : x = pyIntNat w0 := (by simpa using hx : pyIntNat w0 = x).symm
    have hy' : y = pyIntNat w := (by simpa using hy : pyIntNat w = y).symm
    subst hx'
    subst hy'
    exact le_trans (hlast w0 (by rw [hgl]; rfl)) hw



/-- Evaluation of one watch iteration once the cycle refresh has succeeded. -/
theorem watch_iteration_eq (cfg : Config) (fs : FS) (pi : PollInput) (st stc : EngineState)
    (hcyc : cycle_refresh cfg fs pi.time st = Except.ok stc) :
    watch_iteration cfg fs pi st =
      match get_last_run_from_file pi.fileContent with
      | Except.error _ => Except.ok stc
      | Except.ok r =>
        if r ≠ stc.lastRecorded then
          if (pyIntNat r : Int) - (pyIntNat stc.lastRecorded : Int) > 1 then
            Except.ok (recover_lost_runs cfg fs stc stc.lastRecorded r)
          else Except.ok (new_run_detected cfg fs stc r none)
        else Except.ok stc := by
  unfold watch_iteration
  rw [hcyc]

/-- One watch iteration keeps the store writes nondecreasing and the last
write at or below the in-memory watermark, provided the iteration's
successful reading (if any) is at or above the in-memory watermark; the
watermark ends at or below that reading and is untouched when the read
fails. -/
theorem watch_iteration_inv (cfg : Config) (fs : FS) (pi : PollInput) (st st1 : EngineState)
    (h : watch_iteration cfg fs pi st = Except.ok st1)
    (hchain : List.Chain' (· ≤ ·) (st.dbWrites.map pyIntNat))
    (hlastrec : ∀ w ∈ st.dbWrites.getLast?, pyIntNat w ≤ pyIntNat st.lastRecorded)
    (hup : ∀ r, get_last_run_from_file pi.fileContent = Except.ok r →
      pyIntNat st.lastRecorded ≤ pyIntNat r) :
    List.Chain' (· ≤ ·) (st1.dbWrites.map pyIntNat) ∧
    (∀ w ∈ st1.dbWrites.getLast?, pyIntNat w ≤ pyIntNat st1.lastRecorded) ∧
    (∀ r, get_last_run_from_file pi.fileContent = Except.ok r →
      pyIntNat st1.lastRecorded ≤ pyIntNat r) ∧
    (∀ e, get_last_run_from_file pi.fileContent = Except.error e →
      st1.lastRecorded = st.lastRecorded) ∧
    (∃ t, st1.dbWrites = st.dbWrites ++ t) := by
  cases hcyc : cycle_refresh cfg fs pi.time st with
  | error e =>
    unfold watch_iteration at h
    rw [hcyc] at h
    exact Except.noConfusion h
  | ok stc =>
    rw [watch_iteration_eq cfg fs pi st stc hcyc] at h
    obtain ⟨f1, -, -, f4, -⟩ := cycle_refresh_frame cfg fs pi.time st stc hcyc
    have hrecval : pyIntNat stc.lastRecorded = pyIntNat st.lastRecorded := by rw [f1]
    have hchainc : List.Chain' (· ≤ ·) (stc.dbWrites.map pyIntNat) := by rw [f4]; exact hchain
    have hlastc : ∀ w ∈ stc.dbWrites.getLast?, pyIntNat w ≤ pyIntNat stc.lastRecorded := by
      rw [f4, f1]; exact hlastrec
    cases hread : get_last_run_from_file pi.fileContent with
    | error e =>
      rw [hread] at h
      have hst : st1 = stc := (Except.ok.inj h).symm
      subst hst
      refine ⟨hchainc, hlastc, ?_, ?_, ⟨[], by rw [f4, List.append_nil]⟩⟩
      · intro r hr
        exact Except.noConfusion hr
      · intro e' _
        exact f1
    | ok r =>
      rw [hread] at h
      have hupr : pyIntNat st.lastRecorded ≤ pyIntNat r := hup r hread
      have h2 : (if r ≠ stc.lastRecorded then
            if (pyIntNat r : Int) - (pyIntNat stc.lastRecorded : Int) > 1 then
              Except.ok (recover_lost_runs cfg fs stc stc.lastRecorded r)
            else Except.ok (new_run_detected cfg fs stc r none)
          else Except.ok stc) = Except.ok st1 := h
      by_cases hne : r = stc.lastRecorded
      · rw [if_neg (fun hh => hh hne)] at h2
        have hst : st1 = stc := (Except.ok.inj h2).symm
        subst hst
        refine ⟨hchainc, hlastc, ?_, ?_, ⟨[], by rw [f4, List.append_nil]⟩⟩
        · intro r' hr'
          obtain rfl : r = r' := Except.ok.inj hr'
          rw [hne]
        · intro e he
          exact Except.noConfusion he
      · rw [if_pos hne] at h2
        by_cases hdiff : (pyIntNat r : Int) - (pyIntNat stc.lastRecorded : Int) > 1
        · rw [if_pos hdiff] at h2
          have hst : st1 = recover_lost_runs cfg fs stc stc.lastRecorded r :=
            (Except.ok.inj h2).symm
          have hrl : recover_lost_runs cfg fs stc stc.lastRecorded r =
              recover_runs_list cfg fs (grab_zeros_from_beginning_of_string stc.lastRecorded)
                (List.range' (pyIntNat stc.lastRecorded + 1)
                  (pyIntNat r - pyIntNat stc.lastRecorded)) stc := rfl
          rw [hrl] at hst
          have hres := recover_runs_list_inv cfg fs
            (grab_zeros_from_beginning_of_string stc.lastRecorded)
            (grab_zeros_all_zero stc.lastRecorded)
            (List.range' (pyIntNat stc.lastRecorded + 1)
              (pyIntNat r - pyIntNat stc.lastRecorded)) stc (pyIntNat r)
            (pairwise_lt_range' _ _) hchainc
            (by
              intro w hw r' hr'
              have hb := mem_range'_bounds hr'
              have := hlastc w hw
              omega)
            hlastc
            (by rw [hrecval]; exact hupr)
            (by
              intro r' hr'
              have hb := mem_range'_bounds hr'
              omega)
          rw [← hst] at hres
          refine ⟨hres.1, hres.2.1, ?_, ?_, ?_⟩
          · intro r' hr'
            obtain rfl : r = r' := Except.ok.inj hr'
            exact hres.2.2.1
          · intro e he
            exact Except.noConfusion he
          · rcases hres.2.2.2 with ⟨t, ht⟩
            refine ⟨t, ?_⟩
            rw [ht, f4]
        · rw [if_neg hdiff] at h2
          have hst : st1 = new_run_detected cfg fs stc r none := (Except.ok.inj h2).symm
          cases hgen : generate_run_path cfg fs stc.latestCycle r with
          | none =>
            have hid : new_run_detected cfg fs stc r none = stc := by
              simp [new_run_detected, hgen]
            rw [hid] at hst
            subst hst
            refine ⟨hchainc, hlastc, ?_, ?_, ⟨[], by rw [f4, List.append_nil]⟩⟩
            · intro r' hr'
              obtain rfl : r = r' := Except.ok.inj hr'
              rw [hrecval]
              exact hupr
            · intro e he
              exact Except.noConfusion he
          | some p =>
            have hemit : new_run_detected cfg fs stc r none = emit_and_record cfg stc r p := by
              simp [new_run_detected, hgen]
            rw [hemit] at hst
            subst hst
            have hdw : (emit_and_record cfg stc r p).dbWrites = stc.dbWrites ++ [r] := rfl
            have hlr : (emit_and_record cfg stc r p).lastRecorded = r := rfl
            refine ⟨?_, ?_, ?_, ?_, ⟨[r], by rw [hdw, f4]⟩⟩
            · rw [hdw]
              refine chain_append_single stc.dbWrites r (pyIntNat stc.lastRecorded)
                hchainc hlastc ?_
              rw [hrecval]
              exact hupr
            · intro w hw
              rw [hdw, List.getLast?_concat] at hw
              have : w = r := (by simpa using hw : r = w).symm
              subst this
              rw [hlr]
            · intro r' hr'
              obtain rfl : r = r' := Except.ok.inj hr'
              rw [hlr]
            · intro e he
              exact Except.noConfusion he

/-- The successful watermark readings of a poll schedule, in order. -/
def readings (inputs : List PollInput) : List String :=
  inputs.filterMap (fun pi => (get_last_run_from_file pi.fileContent).toOption)

theorem readings_cons_ok (pi : PollInput) (rest : List PollInput) (r : String)
    (h : get_last_run_from_file pi.fileContent = Except.ok r) :
    readings (pi :: rest) = r :: readings rest := by
  simp [readings, List.filterMap_cons, h, Except.toOption]

theorem readings_cons_err (pi : PollInput) (rest : List PollInput) (e : String)
    (h : get_last_run_from_file pi.fileContent = Except.error e) :
    readings (pi :: rest) = readings rest := by
  simp [readings, List.filterMap_cons, h, Except.toOption]

/-- Invariant preservation through the watch loop: when the successful
readings form a nondecreasing sequence whose first element is at or above the
in-memory watermark, the store writes stay nondecreasing, the last write
stays at or below the in-memory watermark, and the final watermark is at or
below the final reading. -/
theorem watch_loop_inv (cfg : Config) (fs : FS) :
    ∀ (inputs : List PollInput) (st st' : EngineState),
      watch_loop cfg fs inputs st = Except.ok st' →
      List.Chain' (· ≤ ·) (st.dbWrites.map pyIntNat) →
      (∀ w ∈ st.dbWrites.getLast?, pyIntNat w ≤ pyIntNat st.lastRecorded) →
      List.Chain' (fun a b => pyIntNat a ≤ pyIntNat b) (readings inputs) →
      (∀ r ∈ (readings inputs).head?, pyIntNat st.lastRecorded ≤ pyIntNat r) →
      List.Chain' (· ≤ ·) (st'.dbWrites.map pyIntNat) ∧
      (∀ w ∈ st'.dbWrites.getLast?, pyIntNat w ≤ pyIntNat st'.lastRecorded) ∧
      (∀ r ∈ (readings inputs).getLast?, pyIntNat st'.lastRecorded ≤ pyIntNat r) ∧
      (readings inputs = [] → st'.lastRecorded = st.lastRecorded) ∧
      (∃ t, st'.dbWrites = st.dbWrites ++ t) := by
  intro inputs
  induction inputs with
  | nil =>
    intro st st' h hchain hlast hrchain hrhead
    have hst : st' = st := (Except.ok.inj h).symm
    subst hst
    refine ⟨hchain, hlast, ?_, fun _ => rfl, ⟨[], (List.append_nil _).symm⟩⟩
    intro r hr
    simp [readings] at hr
  | cons pi rest ih =>
    intro st st' h hchain hlast hrchain hrhead
    simp only [watch_loop] at h
    cases hit : watch_iteration cfg fs pi st with
    | error e =>
      rw [hit] at h
      exact Except.noConfusion h
    | ok st1 =>
      rw [hit] at h
      cases hread : get_last_run_from_file pi.fileContent with
      | error e =>
        have hre := readings_cons_err pi rest e hread
        rw [hre] at hrchain hrhead
        have step := watch_iteration_inv cfg fs pi st st1 hit hchain hlast
          (by intro r hr; rw [hread] at hr; exact Except.noConfusion hr)
        have hrec1 : st1.lastRecorded = st.lastRecorded := step.2.2.2.1 e hread
        have hres := ih st1 st' h step.1 step.2.1 hrchain (by rw [hrec1]; exact hrhead)
        refine ⟨hres.1, hres.2.1, ?_, ?_, ?_⟩
        · rw [hre]
          exact hres.2.2.1
        · intro hnil
          rw [hre] at hnil
          rw [hres.2.2.2.1 hnil, hrec1]
        · rcases step.2.2.2.2 with ⟨t1, ht1⟩
          rcases hres.2.2.2.2 with ⟨t2, ht2⟩
          exact ⟨t1 ++ t2, by rw [ht2, ht1, List.append_assoc]⟩
      | ok r =>
        have hro := readings_cons_ok pi rest r hread
        rw [hro] at hrchain hrhead
        have hr0 : pyIntNat st.lastRecorded ≤ pyIntNat r := hrhead r rfl
        have step := watch_iteration_inv cfg fs pi st st1 hit hchain hlast
          (by
            intro r' hr'
            obtain rfl : r = r' := Except.ok.inj (hread.symm.trans hr')
            exact hr0)
        have hr1 : pyIntNat st1.lastRecorded ≤ pyIntNat r := step.2.2.1 r hread
        have hres := ih st1 st' h step.1 step.2.1 hrchain.tail
          (by
            intro y hy
            exact le_trans hr1 (hrchain.rel_head? hy))
        refine ⟨hres.1, hres.2.1, ?_, ?_, ?_⟩
        · rw [hro]
          intro x hx
          cases hrnil : readings rest with
          | nil =>
            rw [hrnil] at hx
            have hxr : x = r := (by simpa using hx : r = x).symm
            subst hxr
            rw [hres.2.2.2.1 hrnil]
            exact hr1
          | cons c l =>
            rw [hrnil] at hx
            rw [List.getLast?_cons_cons] at hx
            have := hres.2.2.1
            rw [hrnil] at this
            exact this x hx
        · intro hnil
          rw [hro] at hnil
          exact List.noConfusion hnil
        · rcases step.2.2.2.2 with ⟨t1, ht1⟩
          rcases hres.2.2.2.2 with ⟨t2, ht2⟩
          exact ⟨t1 ++ t2, by rw [ht2, ht1, List.append_assoc]⟩

/-- A freshly constructed detector satisfies the write invariants: its write
log is the seed write (store empty) or empty (store populated), bounded by
both the in-memory watermark and the persisted one it just read or seeded. -/
theorem detector_construct_inv (cfg : Config) (fs : FS) (initContent : String) (now : Nat)
    (db0 : List InstrumentRow) (st : EngineState)
    (h : detector_construct cfg fs initContent now db0 = Except.ok st) :
    List.Chain' (· ≤ ·) (st.dbWrites.map pyIntNat) ∧
    (∀ w ∈ st.dbWrites.getLast?, pyIntNat w ≤ pyIntNat st.lastRecorded) ∧
    (∀ w ∈ st.dbWrites.getLast?, pyIntNat w ≤ pyIntNat st.latestKnown) ∧
    get_last_run_from_file initContent = Except.ok st.lastRecorded := by
  unfold detector_construct at h
  cases hread : get_last_run_from_file initContent with
  | error e => rw [hread] at h; exact Except.noConfusion h
  | ok r0 =>
    rw [hread] at h
    cases hcyc : get_latest_cycle fs cfg with
    | none => rw [hcyc] at h; exact Except.noConfusion h
    | some c =>
      rw [hcyc] at h
      cases hdb : get_latest_run_from_db cfg db0 with
      | none =>
        rw [hdb] at h
        have hst : st = update_db_with_latest_run cfg
            { lastRecorded := r0, latestKnown := r0, latestCycle := c, lastCycleCheck := now,
              db := db0, dbWrites := [], emissions := [] } r0 := (Except.ok.inj h).symm
        subst hst
        refine ⟨List.chain'_singleton _, ?_, ?_, rfl⟩
        · intro w hw
          have : w = r0 := (by simpa [update_db_with_latest_run] using hw : r0 = w).symm
          subst this
          exact le_refl _
        · intro w hw
          have : w = r0 := (by simpa [update_db_with_latest_run] using hw : r0 = w).symm
          subst this
          exact le_refl _
      | some v =>
        rw [hdb] at h
        have hst : st =
            { lastRecorded := r0, latestKnown := v, latestCycle := c, lastCycleCheck := now,
              db := db0, dbWrites := [], emissions := [] } := (Except.ok.inj h).symm
        subst hst
        refine ⟨List.chain'_nil, ?_, ?_, rfl⟩
        · intro w hw
          simp at hw
        · intro w hw
          simp at hw

/-- The initial reconciliation preserves the write invariants and never moves
the in-memory watermark above the local value read at construction. -/
theorem detector_init_inv (cfg : Config) (fs : FS) (st : EngineState)
    (hchain : List.Chain' (· ≤ ·) (st.dbWrites.map pyIntNat))
    (hlastrec : ∀ w ∈ st.dbWrites.getLast?, pyIntNat w ≤ pyIntNat st.lastRecorded)
    (hlastknown : ∀ w ∈ st.dbWrites.getLast?, pyIntNat w ≤ pyIntNat st.latestKnown) :
    List.Chain' (· ≤ ·) ((detector_init cfg fs st).dbWrites.map pyIntNat) ∧
    (∀ w ∈ (detector_init cfg fs st).dbWrites.getLast?,
      pyIntNat w ≤ pyIntNat (detector_init cfg fs st).lastRecorded) ∧
    pyIntNat (detector_init cfg fs st).lastRecorded ≤ pyIntNat st.lastRecorded := by
  by_cases hc : (pyIntNat st.latestKnown : Int) < (pyIntNat st.lastRecorded : Int)
  · have e1 : detector_init cfg fs st =
        { recover_runs_list cfg fs (grab_zeros_from_beginning_of_string st.latestKnown)
            (List.range' (pyIntNat st.latestKnown + 1)
              (pyIntNat st.lastRecorded - pyIntNat st.latestKnown)) st with
          latestKnown :=
            (recover_runs_list cfg fs (grab_zeros_from_beginning_of_string st.latestKnown)
              (List.range' (pyIntNat st.latestKnown + 1)
                (pyIntNat st.lastRecorded - pyIntNat st.latestKnown)) st).lastRecorded } := by
      unfold detector_init
      rw [if_pos hc]
      rfl
    have hres := recover_runs_list_inv cfg fs
      (grab_zeros_from_beginning_of_string st.latestKnown)
      (grab_zeros_all_zero st.latestKnown)
      (List.range' (pyIntNat st.latestKnown + 1)
        (pyIntNat st.lastRecorded - pyIntNat st.latestKnown)) st (pyIntNat st.lastRecorded)
      (pairwise_lt_range' _ _) hchain
      (by
        intro w hw r' hr'
        have hb := mem_range'_bounds hr'
        have := hlastknown w hw
        omega)
      hlastrec
      (le_refl _)
      (by
        intro r' hr'
        have hb := mem_range'_bounds hr'
        omega)
    rw [e1]
    exact ⟨hres.1, hres.2.1, hres.2.2.1⟩
  · have e1 : detector_init cfg fs st = st := by
      unfold detector_init
      rw [if_neg hc]
    rw [e1]
    exact ⟨hchain, hlastrec, le_refl _⟩

/-- C3 amended: within a single engine instance's lifetime, provided the
successful local watermark readings (starting with the one made at
construction) never decrease numerically, the sequence of values written to
the watermark store is monotonically non-decreasing, and after any
synchronization pass the persisted watermark (the last write) does not exceed
the in-memory watermark nor the final local reading.  Without the
non-decreasing proviso the code writes a smaller value after a backwards
local move (see the counterexample). -/
theorem c3_amended_watermark_monotonic (cfg : Config) (fs : FS) (initContent : String)
    (now : Nat) (db0 : List InstrumentRow) (inputs : List PollInput) (st' : EngineState)
    (h : detector_lifetime cfg fs initContent now db0 inputs = Except.ok st')
    (hmono : List.Chain' (fun a b => pyIntNat a ≤ pyIntNat b)
      ((get_last_run_from_file initContent).toOption.toList ++ readings inputs)) :
    List.Chain' (fun a b => pyIntNat a ≤ pyIntNat b) st'.dbWrites ∧
    (∀ w ∈ st'.dbWrites.getLast?, pyIntNat w ≤ pyIntNat st'.lastRecorded) ∧
    (∀ w ∈ st'.dbWrites.getLast?,
      ∀ r ∈ ((get_last_run_from_file initContent).toOption.toList ++
        readings inputs).getLast?, pyIntNat w ≤ pyIntNat r) := by
  unfold detector_lifetime at h
  cases hcon : detector_construct cfg fs initContent now db0 with
  | error e => rw [hcon] at h; exact Except.noConfusion h
  | ok st0 =>
    rw [hcon] at h
    obtain ⟨hchain0, hlastrec0, hlastknown0, hread0⟩ :=
      detector_construct_inv cfg fs initContent now db0 st0 hcon
    rw [hread0] at hmono ⊢
    have hmono' : List.Chain' (fun a b => pyIntNat a ≤ pyIntNat b)
        (st0.lastRecorded :: readings inputs) := by
      simpa [Except.toOption] using hmono
    obtain ⟨hchain1, hlastrec1, hdec⟩ := detector_init_inv cfg fs st0 hchain0 hlastrec0 hlastknown0
    have hloop := watch_loop_inv cfg fs inputs (detector_init cfg fs st0) st' h
      hchain1 hlastrec1 hmono'.tail
      (by
        intro y hy
        exact le_trans hdec (hmono'.rel_head? hy))
    refine ⟨(List.chain'_map pyIntNat).mp hloop.1, hloop.2.1, ?_⟩
    intro w hw r hr
    have hwrec : pyIntNat w ≤ pyIntNat st'.lastRecorded := hloop.2.1 w hw
    have hrecr : pyIntNat st'.lastRecorded ≤ pyIntNat r := by
      have hr' : r ∈ (st0.lastRecorded :: readings inputs).getLast? := by
        simpa [Except.toOption] using hr
      cases hrnil : readings inputs with
      | nil =>
        rw [hrnil] at hr'
        have : r = st0.lastRecorded := (by simpa using hr' : st0.lastRecorded = r).symm
        subst this
        rw [hloop.2.2.2.1 hrnil]
        exact hdec
      | cons c l =>
        rw [hrnil] at hr'
        rw [List.getLast?_cons_cons] at hr'
        have := hloop.2.2.1
        rw [hrnil] at this
        exact this r hr'
    exact le_trans hwrec hrecr

/-- The final state of the C3 counterexample trace: the local watermark moves
from `4` up to `5` and then backwards to `3`, and the engine writes `5` then
`3` to the store. -/
def stC3 : EngineState :=
  { lastRecorded := "3", latestKnown := "0001", latestCycle := "cycle_23_2",
    lastCycleCheck := 0, db := [⟨"MARI", "3"⟩], dbWrites := ["5", "3"],
    emissions := [directRunPath cfgW "cycle_23_2" "5", directRunPath cfgW "cycle_23_2" "3"] }

/-- C3 counterexample: when the externally maintained local watermark moves
backwards (readings `5` then `3` from recorded `4`), the code takes the
single-run path on the negative difference and writes `5` then `3` to the
watermark store — the sequence of store writes within one instance lifetime
is not monotonically non-decreasing. -/
theorem c3_counterexample :
    watch_loop cfgW fsRuns [⟨0, "MARI 5 0"⟩, ⟨0, "MARI 3 0"⟩]
      { stW with lastRecorded := "4" } = Except.ok stC3 ∧
    stC3.dbWrites = ["5", "3"] ∧
    ¬ List.Chain' (fun a b => pyIntNat a ≤ pyIntNat b) stC3.dbWrites := by
  refine ⟨rfl, rfl, ?_⟩
  intro hch
  exact absurd hch.rel_head (by decide)

/-- A filesystem holding the cycle listing and the single run file needed by
the lifetime witness. -/
def fsLife : FS :=
  ⟨fun p => decide (p = directRunPath cfgW "cycle_23_2" "5"), fun _ => none,
    fun _ => ["cycle_23_2"]⟩

/-- The final state of the witness lifetime: constructed at local watermark
`4` with persisted watermark `4`, then one poll that reads `5`. -/
def stLife : EngineState :=
  { lastRecorded := "5", latestKnown := "4", latestCycle := "cycle_23_2",
    lastCycleCheck := 0, db := [⟨"MARI", "5"⟩], dbWrites := ["5"],
    emissions := [directRunPath cfgW "cycle_23_2" "5"] }

theorem c3_amended_witness :
    List.Chain' (fun a b => pyIntNat a ≤ pyIntNat b) stLife.dbWrites ∧
    (∀ w ∈ stLife.dbWrites.getLast?, pyIntNat w ≤ pyIntNat stLife.lastRecorded) := by
  have hlist : (get_last_run_from_file "MARI 4 0").toOption.toList ++
      readings [⟨0, "MARI 5 0"⟩] = ["4", "5"] := rfl
  have h := c3_amended_watermark_monotonic cfgW fsLife "MARI 4 0" 0 [⟨"MARI", "4"⟩]
    [⟨0, "MARI 5 0"⟩] stLife rfl
    (by rw [hlist]; exact List.chain'_cons.mpr ⟨by decide, List.chain'_singleton _⟩)
  exact ⟨h.1, h.2.1⟩
